import Mathlib

/-
Verification of the versioned-configuration-store core of the
verrazzano-monitoring-instance-api repository (package `handlers`).

The Go sources are shallowly embedded:
  * backend ConfigMaps become association lists `CMap = List (String × String)`
    (Go map iteration order is immaterial here: every order-sensitive use in
    the source first sorts the keys);
  * `time.Time` values become `Int` seconds since Go's zero time
    (January 1, year 1, 00:00:00 UTC); `time.Duration` arithmetic keeps Go's
    int64-nanosecond saturation;
  * `time.Parse` with the fixed layout "2006-01-02T15-04-05" is rendered as an
    executable parser with Go's digit-count and range-check behaviour, and a
    failed parse yields the zero time, exactly as the source ignores the
    parse error;
  * external effects (yaml conversion, element validation, promtool, the
    commit of a ConfigMap) are injected as boolean oracles: a failed commit
    leaves the backend state unchanged, a successful one installs the
    written map.
-/

namespace Vmi

/-! ## Go time: layout "2006-01-02T15-04-05" -/

/-- Max number of files for backup (`MaxBackupFiles` in constants.go). -/
def MaxBackupFiles : Nat := 10

/-- Max hours for backup (`MaxBackupHours` in constants.go). -/
def MaxBackupHours : Int := 48

def isDigitCh (c : Char) : Bool := ('0' ≤ c) && (c ≤ '9')

def digitVal (c : Char) : Nat := c.toNat - 48

/-- Go `getnum(s, fixed := true)`: exactly two digits. -/
def readFixed2 : List Char → Option (Nat × List Char)
  | c1 :: c2 :: rest =>
      if isDigitCh c1 && isDigitCh c2 then some (digitVal c1 * 10 + digitVal c2, rest)
      else none
  | _ => none

/-- Go `stdLongYear`: exactly four digits. -/
def readFixed4 : List Char → Option (Nat × List Char)
  | c1 :: c2 :: c3 :: c4 :: rest =>
      if isDigitCh c1 && isDigitCh c2 && isDigitCh c3 && isDigitCh c4 then
        some (((digitVal c1 * 10 + digitVal c2) * 10 + digitVal c3) * 10 + digitVal c4, rest)
      else none
  | _ => none

/-- Go `getnum(s, fixed := false)` (used for the hour): one or two digits. -/
def readVar2 : List Char → Option (Nat × List Char)
  | [] => none
  | c1 :: rest =>
      if isDigitCh c1 then
        match rest with
        | c2 :: rest2 =>
            if isDigitCh c2 then some (digitVal c1 * 10 + digitVal c2, rest2)
            else some (digitVal c1, rest)
        | [] => some (digitVal c1, [])
      else none

/-- Consume one literal layout character. -/
def readLit (c : Char) : List Char → Option (List Char)
  | d :: rest => if d = c then some rest else none
  | [] => none

def isLeapYear (y : Int) : Bool :=
  Int.emod y 4 = 0 && (Int.emod y 100 ≠ 0 || Int.emod y 400 = 0)

def daysInMonth (y : Int) (m : Nat) : Nat :=
  if m = 2 then (if isLeapYear y then 29 else 28)
  else if m = 4 ∨ m = 6 ∨ m = 9 ∨ m = 11 then 30
  else 31

/-- Days since 1970-01-01 of the civil date `(y, m, d)` (Hinnant's
`days_from_civil`, with C-style truncated division as in the reference
implementation used by Go's internal date arithmetic). -/
def daysFromCivil (y : Int) (m d : Nat) : Int :=
  let yAdj : Int := if m ≤ 2 then y - 1 else y
  let era : Int := Int.tdiv (if 0 ≤ yAdj then yAdj else yAdj - 399) 400
  let yoe : Int := yAdj - era * 400
  let mp : Int := if 3 ≤ m then (m : Int) - 3 else (m : Int) + 9
  let doy : Int := Int.tdiv (153 * mp + 2) 5 + (d : Int) - 1
  let doe : Int := yoe * 365 + Int.tdiv yoe 4 - Int.tdiv yoe 100 + doy
  era * 146097 + doe - 719468

/-- Day number of Go's zero time 0001-01-01 relative to 1970-01-01. -/
def goZeroDays : Int := daysFromCivil 1 1 1

/-- Seconds since Go's zero time of a civil UTC date-time. -/
def secOfDateTime (y : Int) (mo d h mi s : Nat) : Int :=
  (daysFromCivil y mo d - goZeroDays) * 86400 + ((h * 3600 + mi * 60 + s : Nat) : Int)

/-- Go `time.Parse("2006-01-02T15-04-05", s)`, as seconds since the zero time.
Returns `none` where Go returns a parse error (wrong digit counts, wrong
literal separators, leftover text, or out-of-range month/day/hour/min/sec). -/
def parseLayout (s : String) : Option Int := do
  let cs0 := s.toList
  let (year, cs1) ← readFixed4 cs0
  let cs2 ← readLit '-' cs1
  let (month, cs3) ← readFixed2 cs2
  let cs4 ← readLit '-' cs3
  let (day, cs5) ← readFixed2 cs4
  let cs6 ← readLit 'T' cs5
  let (hour, cs7) ← readVar2 cs6
  let cs8 ← readLit '-' cs7
  let (minute, cs9) ← readFixed2 cs8
  let cs10 ← readLit '-' cs9
  let (sec, cs11) ← readFixed2 cs10
  if cs11 = [] ∧ 1 ≤ month ∧ month ≤ 12 ∧ 1 ≤ day ∧ day ≤ daysInMonth (year : Int) month ∧
      hour ≤ 23 ∧ minute ≤ 59 ∧ sec ≤ 59 then
    some (secOfDateTime (year : Int) month day hour minute sec)
  else
    none

/-- Civil date of a day number relative to 1970-01-01 (Hinnant's
`civil_from_days`). -/
def civilFromDays (z0 : Int) : Int × Nat × Nat :=
  let z := z0 + 719468
  let era := Int.tdiv (if 0 ≤ z then z else z - 146096) 146097
  let doe := z - era * 146097
  let yoe := Int.tdiv (doe - Int.tdiv doe 1460 + Int.tdiv doe 36524 - Int.tdiv doe 146096) 365
  let y := yoe + era * 400
  let doy := doe - (365 * yoe + Int.tdiv yoe 4 - Int.tdiv yoe 100)
  let mp := Int.tdiv (5 * doy + 2) 153
  let da := doy - Int.tdiv (153 * mp + 2) 5 + 1
  let mo := if mp < 10 then mp + 3 else mp - 9
  (if mo ≤ 2 then y + 1 else y, mo.toNat, da.toNat)

def padNum (width n : Nat) : String :=
  let s := toString n
  if s.length < width then String.mk (List.replicate (width - s.length) '0') ++ s else s

def pad2 (n : Nat) : String := padNum 2 n

/-- Go `t.Format("2006-01-02T15-04-05")` for `t` given as seconds since the
zero time. -/
def formatLayout (sec : Int) : String :=
  let days := Int.ediv sec 86400 + goZeroDays
  let rem := (Int.emod sec 86400).toNat
  let c := civilFromDays days
  let yearStr := if c.1 < 0 then "-" ++ padNum 4 (-c.1).toNat else padNum 4 c.1.toNat
  yearStr ++ "-" ++ pad2 c.2.1 ++ "-" ++ pad2 c.2.2 ++ "T" ++
    pad2 (rem / 3600) ++ "-" ++ pad2 (rem % 3600 / 60) ++ "-" ++ pad2 (rem % 60)

/-! ## ConfigMap data as association lists -/

/-- A Kubernetes ConfigMap `Data` field: `map[string]string`. -/
abbrev CMap := List (String × String)

/-- Go map read `m[k]` (as an option; Go's zero-value default is taken via
`Option.getD` at use sites that read absent keys). -/
def cmLookup (m : CMap) (k : String) : Option String :=
  match m with
  | [] => none
  | kv :: rest => if kv.1 = k then some kv.2 else cmLookup rest k

/-- Go `delete(m, k)`. -/
def cmErase (m : CMap) (k : String) : CMap :=
  match m with
  | [] => []
  | kv :: rest => if kv.1 = k then cmErase rest k else kv :: cmErase rest k

/-- Go map write `m[k] = v`. -/
def cmInsert (m : CMap) (k v : String) : CMap :=
  (k, v) :: cmErase m k

def cmKeys (m : CMap) : List String := m.map Prod.fst

/-- One direction of `reflect.DeepEqual` on string maps. -/
def cmSubmap (m1 m2 : CMap) : Bool :=
  m1.all (fun kv => cmLookup m2 kv.1 = some kv.2)

/-- Go `reflect.DeepEqual` on two non-nil `map[string]string` values. -/
def cmDeepEqual (m1 m2 : CMap) : Bool :=
  cmSubmap m1 m2 && cmSubmap m2 m1

/-! ## String helpers mirroring the `strings` package -/

/-- Go `strings.HasPrefix k p`. -/
def strHasPre (k p : String) : Bool := p.toList.isPrefixOf k.toList

/-- Go `strings.HasSuffix s suf`. -/
def strHasSuf (s suf : String) : Bool := suf.toList.isSuffixOf s.toList

/-- Go `strings.Contains s pat`. -/
def strContains (s pat : String) : Bool := decide (pat.toList <:+: s.toList)

/-- Remove the first occurrence of `pat` from a character list
(`strings.Replace(s, pat, "", 1)`). -/
def removeFirstOcc (pat : List Char) : List Char → List Char
  | [] => []
  | c :: rest =>
      if pat.isPrefixOf (c :: rest) then List.drop pat.length (c :: rest)
      else c :: removeFirstOcc pat rest

/-- Go `strings.Replace(s, pat, "", 1)`. -/
def replaceFirst (s pat : String) : String :=
  String.mk (removeFirstOcc pat.toList s.toList)

/-- Go RE2 `[[:word:]]` (ASCII word character). -/
def isWordCh (c : Char) : Bool :=
  ('0' ≤ c && c ≤ '9') || ('a' ≤ c && c ≤ 'z') || ('A' ≤ c && c ≤ 'Z') || c = '_'

/-- Function `validateName` from helper.go: delete every hyphen, then succeed iff the
unanchored pattern "[[:word:]]" matches (i.e. some ASCII word character is
present). `true` stands for `nil`, `false` for `errCanaryWithInvalidName`. -/
def validateName (proposedName : String) : Bool :=
  let s := proposedName.toList.filter (fun c => c ≠ '-')
  s.any isWordCh

/-- Character class of the version-timestamp validation pattern `^[0-9-T]*$`. -/
def versionCh (c : Char) : Bool := ('0' ≤ c && c ≤ '9') || c = '-' || c = 'T'

/-- The handlers' timestamp pre-check: `regexp.Compile("^[0-9-T]*$")` followed
by `ReplaceAllString(version, "") == ""`. The anchored pattern matches (and is
deleted) exactly when the whole string lies in the class, so the replaced
string is empty iff every character is a digit, a hyphen, or `T`. -/
def versionStringOk (version : String) : Bool :=
  version.toList.all versionCh

/-! ## Version key codec and retention policy (helper.go) -/

/-- Timestamp of a backup key: strip the first occurrence of `fileName ++ "-"`
and parse with the fixed layout; a parse failure yields Go's zero time, as in
`sortKeysFromConfigMap` and `isOldVersion`, which both ignore the error from
`time.Parse`. -/
def keyTimestampSec (key fileName : String) : Int :=
  (parseLayout (replaceFirst key (fileName ++ "-"))).getD 0

/-- Insert into a list that is sorted descending by `t` (ties keep existing
order, a deterministic rendering of `sort.Slice`'s unspecified tie order). -/
def insertDesc (t : String → Int) (x : String) : List String → List String
  | [] => [x]
  | y :: ys => if t y < t x then x :: y :: ys else y :: insertDesc t x ys

/-- Sort descending by `t`. -/
def sortDesc (t : String → Int) : List String → List String
  | [] => []
  | x :: xs => insertDesc t x (sortDesc t xs)

/-- Function `sortKeysFromConfigMap` from helper.go: keep the keys having `fileName`
as a literal prefix (when `fileName` is non-empty) and sort them by parsed
timestamp, most recent first. -/
def sortKeysFromConfigMap (configMap : CMap) (fileName : String) : List String :=
  let keyList := (cmKeys configMap).filter
    (fun k => (!(fileName = "")) && strHasPre k fileName)
  sortDesc (fun k => keyTimestampSec k fileName) keyList

/-- Saturation bounds of `time.Duration` (int64 nanoseconds). -/
def maxDurationNs : Int := 9223372036854775807

def minDurationNs : Int := -9223372036854775808

def clampDurNs (ns : Int) : Int :=
  if ns > maxDurationNs then maxDurationNs
  else if ns < minDurationNs then minDurationNs
  else ns

/-- Go `int(diff.Hours())` for `diff := timeNow.Sub(keyTime)`: the difference in
nanoseconds saturates at the `time.Duration` bounds, and the hour count
truncates toward zero. -/
def backupAgeHours (key fileName : String) (timeNow : Int) : Int :=
  Int.tdiv (clampDurNs ((timeNow - keyTimestampSec key fileName) * 1000000000)) 3600000000000

/-- Function `isOldVersion` from helper.go: is the key `MaxBackupHours` old or older? -/
def isOldVersion (key fileName : String) (timeNow : Int) : Bool :=
  backupAgeHours key fileName timeNow ≥ MaxBackupHours

/-- The retention pass shared by the three Put handlers: when more than
`MaxBackupFiles` keys match, delete every key at sorted position
`≥ MaxBackupFiles` that `isOldVersion` accepts. The key list is computed
once before the deletions, exactly as in the source loop. -/
def pruneOldBackups (savedMap : CMap) (fileName : String) (timeNow : Int) : CMap :=
  let keyList := sortKeysFromConfigMap savedMap fileName
  if keyList.length > MaxBackupFiles then
    let evict := (keyList.drop MaxBackupFiles).filter (fun key => isOldVersion key fileName timeNow)
    savedMap.filter (fun kv => !(evict.contains kv.1))
  else savedMap

/-! ## Versioned store state and environment -/

/-- Backend state of one artifact group: the current ConfigMap and the paired
versions ("history") ConfigMap. -/
structure Store where
  current : CMap
  saved : CMap
  deriving DecidableEq

/-- Results of the external collaborators of a Put, injected as oracles:
yaml conversion + JSON parse, the structural element validation, the
promtool/amtool run, and the two `updateConfigMapByName` commits. A `false`
commit leaves the backend map unchanged; a `true` commit installs the
written map. -/
structure PutEnv where
  yamlOk : Bool
  elementsOk : Bool
  promtoolOk : Bool
  histCommitOk : Bool
  curCommitOk : Bool
  deriving DecidableEq

/-- Constant `PrometheusConfigFileName` from constants.go. -/
def PrometheusConfigFileName : String := "prometheus.yml"

inductive RulesPutResult where
  | badName
  | badYaml
  | badElements
  | badPromtool
  | unchanged
  | histCommitFailed
  | curCommitFailed
  | updatedExisting
  | createCommitFailed
  | createdNew
  deriving DecidableEq

/-- Handler `PutPrometheusRules` from the prometheusrules file, after the request body
has been read: validate the file name, the yaml, the rule elements and the
promtool verdict; then either the no-op return, the backup/trim/commit update
path, or the create path. The returned `Store` is the backend state after the
call. -/
def putPrometheusRules (env : PutEnv) (fileName body : String) (now : Int)
    (st : Store) : RulesPutResult × Store :=
  if fileName = "" then (.badName, st)
  else if fileName = ".rules" then (.badName, st)
  else if strHasSuf fileName ".rules" = false then (.badName, st)
  else if validateName fileName = false then (.badName, st)
  else if env.yamlOk = false then (.badYaml, st)
  else if env.elementsOk = false then (.badElements, st)
  else if env.promtoolOk = false then (.badPromtool, st)
  else
    match cmLookup st.current fileName with
    | some cur =>
        if cur = body then (.unchanged, st)
        else
          let keyName := fileName ++ "-" ++ formatLayout now
          let saved2 := pruneOldBackups (cmInsert st.saved keyName cur) fileName now
          if env.histCommitOk = false then (.histCommitFailed, st)
          else if env.curCommitOk = false then
            (.curCommitFailed, { current := st.current, saved := saved2 })
          else
            (.updatedExisting, { current := cmInsert st.current fileName body, saved := saved2 })
    | none =>
        if env.curCommitOk = false then (.createCommitFailed, st)
        else (.createdNew, { current := cmInsert st.current fileName body, saved := st.saved })

inductive ConfigPutResult where
  | badYaml
  | badElements
  | badPromtool
  | unchanged
  | histCommitFailed
  | curCommitFailed
  | accepted
  deriving DecidableEq

/-- Handler `PutPrometheusConfig` from prometheusconfighandler.go, after the request
body has been read. The handler always archives the previous value of the
`prometheus.yml` key (reading it with Go's zero-value default when absent)
before writing the new one. -/
def putPrometheusConfig (env : PutEnv) (body : String) (now : Int)
    (st : Store) : ConfigPutResult × Store :=
  if env.yamlOk = false then (.badYaml, st)
  else if env.elementsOk = false then (.badElements, st)
  else if env.promtoolOk = false then (.badPromtool, st)
  else if (cmLookup st.current PrometheusConfigFileName).getD "" = body then (.unchanged, st)
  else
    let keyName := PrometheusConfigFileName ++ "-" ++ formatLayout now
    let prior := (cmLookup st.current PrometheusConfigFileName).getD ""
    let saved2 := pruneOldBackups (cmInsert st.saved keyName prior) PrometheusConfigFileName now
    if env.histCommitOk = false then (.histCommitFailed, st)
    else if env.curCommitOk = false then
      (.curCommitFailed, { current := st.current, saved := saved2 })
    else
      (.accepted, { current := cmInsert st.current PrometheusConfigFileName body, saved := saved2 })

inductive DelResult where
  | badName
  | notFound
  | curCommitFailed
  | histCommitFailed
  | deleted
  deriving DecidableEq

/-- Commit oracles for `DeletePrometheusRules`. -/
structure DelEnv where
  curCommitOk : Bool
  histCommitOk : Bool
  deriving DecidableEq

/-- Handler `DeletePrometheusRules`: validate the name, find the current rule, delete
and commit current first, then delete every matching versions key (the list
computed by `sortKeysFromConfigMap`) and commit the versions map. -/
def deletePrometheusRules (env : DelEnv) (fileName : String) (st : Store) :
    DelResult × Store :=
  if fileName = "" then (.badName, st)
  else if strHasSuf fileName ".rules" = false then (.badName, st)
  else if validateName fileName = false then (.badName, st)
  else
    match cmLookup st.current fileName with
    | none => (.notFound, st)
    | some _ =>
        let cur2 := cmErase st.current fileName
        if env.curCommitOk = false then (.curCommitFailed, st)
        else
          let keyList := sortKeysFromConfigMap st.saved fileName
          let saved2 := st.saved.filter (fun kv => !(keyList.contains kv.1))
          if env.histCommitOk = false then
            (.histCommitFailed, { current := cur2, saved := st.saved })
          else (.deleted, { current := cur2, saved := saved2 })

inductive GetRulesResult where
  | badName
  | badVersion
  | noCurrent
  | found (v : String)
  | notFoundOther
  deriving DecidableEq

/-- Handler `GetPrometheusRules`: name checks, then the `^[0-9-T]*$` version check,
then the existence check against the current map, then the lookup in the
current map (no version) or the versions map (version given). -/
def getPrometheusRules (st : Store) (fileName version : String) : GetRulesResult :=
  if fileName = "" then .badName
  else if strContains fileName ".rules" = false then .badName
  else if validateName fileName = false then .badName
  else if version ≠ "" ∧ versionStringOk version = false then .badVersion
  else
    match cmLookup st.current fileName with
    | none => .noCurrent
    | some v =>
        if version = "" then .found v
        else
          match cmLookup st.saved (fileName ++ "-" ++ version) with
          | some w => .found w
          | none => .notFoundOther

inductive VersionsResult where
  | badName
  | noCurrent
  | noVersions
  | versions (l : List String)
  deriving DecidableEq

/-- Handler `GetPrometheusRuleVersions`: name checks, existence of the current rule,
then the timestamps of all matching keys of the versions map, most recent
first. -/
def getPrometheusRuleVersions (st : Store) (fileName : String) : VersionsResult :=
  if strHasSuf fileName ".rules" = false then .badName
  else if validateName fileName = false then .badName
  else if (cmLookup st.current fileName).isNone then .noCurrent
  else if st.saved.isEmpty then .noVersions
  else
    let vs := (sortKeysFromConfigMap st.saved fileName).map
      (fun k => replaceFirst k (fileName ++ "-"))
    if vs.isEmpty then .noVersions else .versions vs

inductive GetConfigResult where
  | badVersion
  | emptyCurrent
  | noVersions
  | notFoundKey
  | found (v : String)
  deriving DecidableEq

/-- Handler `GetPrometheusConfig`: version check, emptiness responses, then the key
lookup (an absent or empty value is reported as not found, because the
handler tests `len(configValue) == 0` on the zero-value read). -/
def getPrometheusConfig (st : Store) (version : String) : GetConfigResult :=
  if version ≠ "" ∧ versionStringOk version = false then .badVersion
  else if version = "" then
    if st.current.isEmpty then .emptyCurrent
    else
      let v := (cmLookup st.current PrometheusConfigFileName).getD ""
      if v = "" then .notFoundKey else .found v
  else
    if st.saved.isEmpty then .noVersions
    else
      let v := (cmLookup st.saved (PrometheusConfigFileName ++ "-" ++ version)).getD ""
      if v = "" then .notFoundKey else .found v

/-! ## Commit confirmation loop (`updateConfigMapByName` in helper.go) -/

inductive CommitResult where
  | ok
  | getFailed
  | writeFailed
  | readFailed
  | timedOut
  deriving DecidableEq

/-- Go `reflect.DeepEqual(cm.Data, updatedMap)` where `cm.Data` may be the nil
map (`none`): a nil map is never `DeepEqual` to the non-nil `updatedMap`. -/
def deepEqualData : Option CMap → CMap → Bool
  | some mm, u => cmDeepEqual mm u
  | none, _ => false

/-- The `wait.PollImmediate(300ms, 10s, ...)` read-back loop, with the
sequence of `Get` outcomes supplied as a list (its length stands for the
number of polls the fixed timeout allows; an empty remainder is the elapsed
timeout). A read error stops the loop immediately; a read whose data matches
stops with success. -/
def confirmLoop (updatedMap : CMap) : List (Except Unit (Option CMap)) → CommitResult
  | [] => .timedOut
  | r :: rest =>
      match r with
      | Except.error _ => .readFailed
      | Except.ok d =>
          if updatedMap = [] ∧ d = none then .ok
          else if deepEqualData d updatedMap then .ok
          else confirmLoop updatedMap rest

/-- Function `updateConfigMapByName`: the initial `Get` of the ConfigMap object, the
`Update` write (no retry on the write itself), then the confirmation loop.
`wait.ErrWaitTimeout` is mapped to the distinct timed-out result. -/
def updateConfigMapByName (getOk writeOk : Bool) (updatedMap : CMap)
    (polls : List (Except Unit (Option CMap))) : CommitResult :=
  if getOk = false then .getFailed
  else if writeOk = false then .writeFailed
  else confirmLoop updatedMap polls

/-- The claim-side matching predicate: a poll observes the written map when
the read-back data deep-equals it, or, for an empty written map, when the
read-back data is the nil map. -/
def pollObserves (updatedMap : CMap) (d : Option CMap) : Prop :=
  (updatedMap = [] ∧ d = none) ∨ (d.isSome = true ∧ cmDeepEqual (d.getD []) updatedMap = true)

instance (u : CMap) (d : Option CMap) : Decidable (pollObserves u d) := by
  unfold pollObserves; infer_instance

/-! ## Retry executor (`Retry` in helper.go over `wait.ExponentialBackoff`) -/

/-- Result carried by `Retry`: `wait.ErrWaitTimeout` or the last error thrown
by the condition function (error identities are abstracted as codes). -/
inductive GoErr where
  | errWaitTimeout
  | fnErr (code : Nat)
  deriving DecidableEq

/-- Update of `lastErr`: a non-nil error from the attempt replaces the record. -/
def updLastErr (acc : Option Nat) (e : Option Nat) : Option Nat :=
  match e with
  | some x => some x
  | none => acc

/-- The loop of `wait.ExponentialBackoff` as wrapped by `Retry`: the inner
closure records errors in `lastErr` and always returns a nil error, so the
loop stops on `done` or when the step budget is exhausted
(`wait.ErrWaitTimeout`); `Retry` finally overrides the result with `lastErr`
when one was recorded. `fn n` is the outcome of attempt `n`. -/
def retryRun (fn : Nat → Bool × Option Nat) : Nat → Nat → Option Nat → Option GoErr
  | 0, _, acc =>
      match acc with
      | some e => some (GoErr.fnErr e)
      | none => some GoErr.errWaitTimeout
  | steps + 1, idx, acc =>
      let r := fn idx
      let acc2 := updLastErr acc r.2
      if r.1 then
        match acc2 with
        | some e => some (GoErr.fnErr e)
        | none => none
      else retryRun fn steps (idx + 1) acc2

/-- Function `Retry(schedule, fn)` with a schedule of `steps` attempts; `none` stands
for a nil error returned to the caller. -/
def Retry (steps : Nat) (fn : Nat → Bool × Option Nat) : Option GoErr :=
  retryRun fn steps 0 none

/-- First attempt index in `[idx, idx + n)` whose result is `done`. -/
def firstDoneFrom (fn : Nat → Bool × Option Nat) : Nat → Nat → Option Nat
  | _, 0 => none
  | idx, n + 1 => if (fn idx).1 then some idx else firstDoneFrom fn (idx + 1) n

/-- Last error among the `n` attempts starting at `idx`, on top of `acc`. -/
def accErr (fn : Nat → Bool × Option Nat) : Option Nat → Nat → Nat → Option Nat
  | acc, _, 0 => acc
  | acc, idx, n + 1 => accErr fn (updLastErr acc (fn idx).2) (idx + 1) n

/-! ## Shared lemmas -/

theorem mem_drop_iff {α : Type} (l : List α) (n : Nat) (x : α) :
    x ∈ l.drop n ↔ ∃ j, n ≤ j ∧ l[j]? = some x := by
  constructor
  · intro h
    rcases List.mem_iff_getElem?.mp h with ⟨i, hi⟩
    exact ⟨n + i, Nat.le_add_right n i, by rw [← List.getElem?_drop]; exact hi⟩
  · rintro ⟨j, hnj, hj⟩
    apply List.mem_iff_getElem?.mpr
    refine ⟨j - n, ?_⟩
    rw [List.getElem?_drop]
    rwa [Nat.add_sub_cancel' hnj]

theorem mem_insertDesc (t : String → Int) (x y : String) (l : List String) :
    y ∈ insertDesc t x l ↔ y = x ∨ y ∈ l := by
  induction l with
  | nil => simp [insertDesc]
  | cons z zs ih =>
      by_cases h : t z < t x
      · simp [insertDesc, h]
      · simp only [insertDesc, h, if_false, List.mem_cons, ih]
        tauto

theorem mem_sortDesc (t : String → Int) (x : String) (l : List String) :
    x ∈ sortDesc t l ↔ x ∈ l := by
  induction l with
  | nil => simp [sortDesc]
  | cons z zs ih =>
      simp [sortDesc, mem_insertDesc, ih]

theorem cmLookup_cmErase_self (m : CMap) (k : String) :
    cmLookup (cmErase m k) k = none := by
  induction m with
  | nil => simp [cmErase, cmLookup]
  | cons kv rest ih =>
      by_cases h : kv.1 = k
      · simpa [cmErase, h]
      · simpa [cmErase, cmLookup, h]

theorem cmLookup_cmInsert_self (m : CMap) (k v : String) :
    cmLookup (cmInsert m k v) k = some v := by
  simp [cmInsert, cmLookup]

/-- Membership of a matching key in `sortKeysFromConfigMap`. -/
theorem mem_sortKeysFromConfigMap (m : CMap) (fileName k : String) :
    k ∈ sortKeysFromConfigMap m fileName ↔
      k ∈ cmKeys m ∧ fileName ≠ "" ∧ strHasPre k fileName = true := by
  unfold sortKeysFromConfigMap
  rw [mem_sortDesc, List.mem_filter]
  simp only [Bool.and_eq_true, Bool.not_eq_true', decide_eq_false_iff_not]

/-! ## Claim C1: retention pass after the backup insertion -/

/-- Claim C1. For every update of an existing artifact, after the new backup
key is inserted into the history map the retention pass behaves as follows:
if at most `MaxBackupFiles` (10) keys match the base name, nothing is
removed; otherwise an entry is removed exactly when its key sits at position
`≥ MaxBackupFiles` in the descending-by-timestamp order and its age relative
to now is at least `MaxBackupHours` (48) hours — keys beyond the count cap
but younger than the threshold are retained. -/
theorem claim1_retention_pass (m : CMap) (fileName : String) (now : Int) :
    ((sortKeysFromConfigMap m fileName).length ≤ MaxBackupFiles →
      pruneOldBackups m fileName now = m)
    ∧ (∀ kv : String × String,
        kv ∈ pruneOldBackups m fileName now ↔
          kv ∈ m ∧
          ¬ (MaxBackupFiles < (sortKeysFromConfigMap m fileName).length ∧
             (∃ j, MaxBackupFiles ≤ j ∧ (sortKeysFromConfigMap m fileName)[j]? = some kv.1) ∧
             MaxBackupHours ≤ backupAgeHours kv.1 fileName now)) := by
  constructor
  · intro h
    unfold pruneOldBackups
    have hno : ¬ ((sortKeysFromConfigMap m fileName).length > MaxBackupFiles) := by omega
    simp [hno]
  · intro kv
    by_cases h : (sortKeysFromConfigMap m fileName).length > MaxBackupFiles
    · unfold pruneOldBackups
      rw [if_pos h, List.mem_filter]
      have hmem : (((sortKeysFromConfigMap m fileName).drop MaxBackupFiles).filter
            (fun key => isOldVersion key fileName now)).contains kv.1 = true ↔
          (∃ j, MaxBackupFiles ≤ j ∧ (sortKeysFromConfigMap m fileName)[j]? = some kv.1) ∧
            MaxBackupHours ≤ backupAgeHours kv.1 fileName now := by
        rw [List.elem_iff, List.mem_filter, mem_drop_iff]
        unfold isOldVersion
        simp [ge_iff_le]
      constructor
      · rintro ⟨hkv, hc⟩
        refine ⟨hkv, ?_⟩
        rintro ⟨-, hidx, hold⟩
        rw [Bool.not_eq_true', ← Bool.not_eq_true] at hc
        exact hc (hmem.mpr ⟨hidx, hold⟩)
      · rintro ⟨hkv, hno⟩
        refine ⟨hkv, ?_⟩
        rw [Bool.not_eq_true', ← Bool.not_eq_true]
        intro hc
        rcases hmem.mp hc with ⟨hidx, hold⟩
        exact hno ⟨h, hidx, hold⟩
    · unfold pruneOldBackups
      rw [if_neg h]
      constructor
      · intro hkv
        exact ⟨hkv, fun hcl => h hcl.1⟩
      · rintro ⟨hkv, -⟩
        exact hkv

/-- Witness data: a history map with two backup keys. -/
def c1map : CMap :=
  [("a.rules-2020-01-01T00-00-00", "v0"), ("a.rules-2020-01-01T00-00-01", "v1")]

/-- Witness for claim C1: on a history holding two backups (at most the cap),
the retention pass removes nothing. -/
theorem claim1_retention_pass_witness :
    (sortKeysFromConfigMap c1map "a.rules").length ≤ MaxBackupFiles ∧
      pruneOldBackups c1map "a.rules" 63713433600 = c1map :=
  ⟨by decide, (claim1_retention_pass c1map "a.rules" 63713433600).1 (by decide)⟩

/-! ## Claim C2: an identical Put is a pure read -/

theorem putRules_noop_of_eq (env : PutEnv) (fileName body : String) (now : Int)
    (st : Store) (hn0 : fileName ≠ "") (hn1 : fileName ≠ ".rules")
    (hn2 : strHasSuf fileName ".rules" = true) (hn3 : validateName fileName = true)
    (he1 : env.yamlOk = true) (he2 : env.elementsOk = true) (he3 : env.promtoolOk = true)
    (hcur : cmLookup st.current fileName = some body) :
    putPrometheusRules env fileName body now st = (.unchanged, st) := by
  simp [putPrometheusRules, hn0, hn1, hn2, hn3, he1, he2, he3, hcur]

theorem putConfig_noop_of_eq (env : PutEnv) (body : String) (now : Int) (st : Store)
    (he1 : env.yamlOk = true) (he2 : env.elementsOk = true) (he3 : env.promtoolOk = true)
    (hcur : cmLookup st.current PrometheusConfigFileName = some body) :
    putPrometheusConfig env body now st = (.unchanged, st) := by
  simp [putPrometheusConfig, he1, he2, he3, hcur]

/-- Claim C2. Putting content byte-for-byte identical to the artifact's
current value returns the unchanged outcome and writes neither the current
collection nor the history collection; consequently a second identical Put
immediately after a successful Put is a pure read that leaves the history
collection unchanged. Stated for both the rules handler and the prometheus
config handler. -/
theorem claim2_identical_put_pure_read :
    (∀ (env : PutEnv) (body : String) (now : Int) (st : Store),
      env.yamlOk = true → env.elementsOk = true → env.promtoolOk = true →
      cmLookup st.current PrometheusConfigFileName = some body →
      putPrometheusConfig env body now st = (.unchanged, st))
    ∧ (∀ (env : PutEnv) (fileName body : String) (now : Int) (st : Store),
      fileName ≠ "" → fileName ≠ ".rules" → strHasSuf fileName ".rules" = true →
      validateName fileName = true →
      env.yamlOk = true → env.elementsOk = true → env.promtoolOk = true →
      cmLookup st.current fileName = some body →
      putPrometheusRules env fileName body now st = (.unchanged, st))
    ∧ (∀ (env env2 : PutEnv) (fileName body : String) (now now2 : Int) (st : Store),
      fileName ≠ "" → fileName ≠ ".rules" → strHasSuf fileName ".rules" = true →
      validateName fileName = true →
      env2.yamlOk = true → env2.elementsOk = true → env2.promtoolOk = true →
      ((putPrometheusRules env fileName body now st).1 = .updatedExisting ∨
        (putPrometheusRules env fileName body now st).1 = .createdNew) →
      putPrometheusRules env2 fileName body now2 (putPrometheusRules env fileName body now st).2 =
        (.unchanged, (putPrometheusRules env fileName body now st).2)) := by
  refine ⟨putConfig_noop_of_eq, putRules_noop_of_eq, ?_⟩
  intro env env2 fileName body now now2 st hn0 hn1 hn2 hn3 he1 he2 he3 hres
  have hcur : cmLookup (putPrometheusRules env fileName body now st).2.current fileName =
      some body := by
    by_cases hb0 : fileName = ""
    · simp [putPrometheusRules, hb0] at hres
    by_cases hb1 : fileName = ".rules"
    · simp [putPrometheusRules, hb0, hb1] at hres
    by_cases hb2 : strHasSuf fileName ".rules" = true
    swap
    · rw [Bool.not_eq_true] at hb2
      simp [putPrometheusRules, hb0, hb1, hb2] at hres
    by_cases hb3 : validateName fileName = true
    swap
    · rw [Bool.not_eq_true] at hb3
      simp [putPrometheusRules, hb0, hb1, hb2, hb3] at hres
    by_cases hb4 : env.yamlOk = true
    swap
    · rw [Bool.not_eq_true] at hb4
      simp [putPrometheusRules, hb0, hb1, hb2, hb3, hb4] at hres
    by_cases hb5 : env.elementsOk = true
    swap
    · rw [Bool.not_eq_true] at hb5
      simp [putPrometheusRules, hb0, hb1, hb2, hb3, hb4, hb5] at hres
    by_cases hb6 : env.promtoolOk = true
    swap
    · rw [Bool.not_eq_true] at hb6
      simp [putPrometheusRules, hb0, hb1, hb2, hb3, hb4, hb5, hb6] at hres
    rcases hc : cmLookup st.current fileName with _ | cur
    · rcases hb7 : env.curCommitOk with _ | _
      · simp [putPrometheusRules, hb0, hb1, hb2, hb3, hb4, hb5, hb6, hb7, hc] at hres
      · simp [putPrometheusRules, hb0, hb1, hb2, hb3, hb4, hb5, hb6, hb7, hc,
          cmLookup_cmInsert_self]
    · by_cases hb8 : cur = body
      · simp [putPrometheusRules, hb0, hb1, hb2, hb3, hb4, hb5, hb6, hc, hb8] at hres
      · rcases hb9 : env.histCommitOk with _ | _
        · simp [putPrometheusRules, hb0, hb1, hb2, hb3, hb4, hb5, hb6, hb9, hc, hb8] at hres
        · rcases hb10 : env.curCommitOk with _ | _
          · simp [putPrometheusRules, hb0, hb1, hb2, hb3, hb4, hb5, hb6, hb9, hb10,
              hc, hb8] at hres
          · simp [putPrometheusRules, hb0, hb1, hb2, hb3, hb4, hb5, hb6, hb9, hb10, hc, hb8,
              cmLookup_cmInsert_self]
  exact putRules_noop_of_eq env2 fileName body now2 _ hn0 hn1 hn2 hn3 he1 he2 he3 hcur

/-- Environment in which every external validation and commit succeeds. -/
def envAllOk : PutEnv :=
  { yamlOk := true, elementsOk := true, promtoolOk := true,
    histCommitOk := true, curCommitOk := true }

/-- Environment in which the history commit fails. -/
def envHistFails : PutEnv :=
  { yamlOk := true, elementsOk := true, promtoolOk := true,
    histCommitOk := false, curCommitOk := true }

/-- Environment in which the promtool validation fails. -/
def envBadPromtool : PutEnv :=
  { yamlOk := true, elementsOk := true, promtoolOk := false,
    histCommitOk := true, curCommitOk := true }

/-- A store holding one current rule and no backups. -/
def stOne : Store := { current := [("a.rules", "x")], saved := [] }

/-- Witness for claim C2: re-putting the identical rule body is reported
unchanged and leaves the store untouched. -/
theorem claim2_identical_put_pure_read_witness :
    cmLookup stOne.current "a.rules" = some "x" ∧
      putPrometheusRules envAllOk "a.rules" "x" 0 stOne = (.unchanged, stOne) :=
  ⟨by decide, claim2_identical_put_pure_read.2.1 envAllOk "a.rules" "x" 0 stOne
    (by decide) (by decide) (by decide) (by decide) rfl rfl rfl (by decide)⟩

/-! ## Claim C3: rejected content never mutates the backend -/

/-- Claim C3. A Put whose content fails validation (yaml conversion, the
structural element check, or the external validator tool) returns the
corresponding invalid outcome and performs no backend mutation: the returned
store is exactly the pre-call store, so a subsequent read of the current
value is unchanged. Stated for both the rules handler and the prometheus
config handler. -/
theorem claim3_invalid_put_no_mutation :
    (∀ (env : PutEnv) (fileName body : String) (now : Int) (st : Store),
      fileName ≠ "" → fileName ≠ ".rules" → strHasSuf fileName ".rules" = true →
      validateName fileName = true →
      ¬ (env.yamlOk = true ∧ env.elementsOk = true ∧ env.promtoolOk = true) →
      (putPrometheusRules env fileName body now st).2 = st ∧
        ((putPrometheusRules env fileName body now st).1 = .badYaml ∨
         (putPrometheusRules env fileName body now st).1 = .badElements ∨
         (putPrometheusRules env fileName body now st).1 = .badPromtool) ∧
        cmLookup (putPrometheusRules env fileName body now st).2.current fileName =
          cmLookup st.current fileName)
    ∧ (∀ (env : PutEnv) (body : String) (now : Int) (st : Store),
      ¬ (env.yamlOk = true ∧ env.elementsOk = true ∧ env.promtoolOk = true) →
      (putPrometheusConfig env body now st).2 = st ∧
        ((putPrometheusConfig env body now st).1 = .badYaml ∨
         (putPrometheusConfig env body now st).1 = .badElements ∨
         (putPrometheusConfig env body now st).1 = .badPromtool) ∧
        cmLookup (putPrometheusConfig env body now st).2.current PrometheusConfigFileName =
          cmLookup st.current PrometheusConfigFileName) := by
  constructor
  · intro env fileName body now st hn0 hn1 hn2 hn3 hbad
    rcases hy : env.yamlOk with _ | _
    · refine ⟨?_, ?_, ?_⟩ <;> simp [putPrometheusRules, hn0, hn1, hn2, hn3, hy]
    · rcases hel : env.elementsOk with _ | _
      · refine ⟨?_, ?_, ?_⟩ <;> simp [putPrometheusRules, hn0, hn1, hn2, hn3, hy, hel]
      · rcases hp : env.promtoolOk with _ | _
        · refine ⟨?_, ?_, ?_⟩ <;> simp [putPrometheusRules, hn0, hn1, hn2, hn3, hy, hel, hp]
        · exact absurd ⟨hy, hel, hp⟩ hbad
  · intro env body now st hbad
    rcases hy : env.yamlOk with _ | _
    · refine ⟨?_, ?_, ?_⟩ <;> simp [putPrometheusConfig, hy]
    · rcases hel : env.elementsOk with _ | _
      · refine ⟨?_, ?_, ?_⟩ <;> simp [putPrometheusConfig, hy, hel]
      · rcases hp : env.promtoolOk with _ | _
        · refine ⟨?_, ?_, ?_⟩ <;> simp [putPrometheusConfig, hy, hel, hp]
        · exact absurd ⟨hy, hel, hp⟩ hbad

/-- Witness for claim C3: a promtool rejection leaves the one-rule store
exactly as it was. -/
theorem claim3_invalid_put_no_mutation_witness :
    (putPrometheusRules envBadPromtool "a.rules" "y" 0 stOne).2 = stOne ∧
      ((putPrometheusRules envBadPromtool "a.rules" "y" 0 stOne).1 = .badYaml ∨
       (putPrometheusRules envBadPromtool "a.rules" "y" 0 stOne).1 = .badElements ∨
       (putPrometheusRules envBadPromtool "a.rules" "y" 0 stOne).1 = .badPromtool) ∧
      cmLookup (putPrometheusRules envBadPromtool "a.rules" "y" 0 stOne).2.current "a.rules" =
        cmLookup stOne.current "a.rules" :=
  claim3_invalid_put_no_mutation.1 envBadPromtool "a.rules" "y" 0 stOne
    (by decide) (by decide) (by decide) (by decide) (by decide)

/-! ## Claim C4: history is committed before current -/

/-- Claim C4. Within a single Put of an existing artifact the history map is
committed before the current map: when the history commit fails the whole
operation aborts with that error and the backend — in particular the current
collection — is untouched; when the history commit succeeds and the current
commit fails, the new backup is already in the history while the current
value is unchanged. Stated for both the rules handler and the prometheus
config handler. -/
theorem claim4_history_commit_first :
    (∀ (env : PutEnv) (fileName body cur : String) (now : Int) (st : Store),
      fileName ≠ "" → fileName ≠ ".rules" → strHasSuf fileName ".rules" = true →
      validateName fileName = true →
      env.yamlOk = true → env.elementsOk = true → env.promtoolOk = true →
      cmLookup st.current fileName = some cur → cur ≠ body →
      (env.histCommitOk = false →
        putPrometheusRules env fileName body now st = (.histCommitFailed, st))
      ∧ (env.histCommitOk = true → env.curCommitOk = false →
        putPrometheusRules env fileName body now st =
          (.curCommitFailed, Store.mk st.current (pruneOldBackups
            (cmInsert st.saved (fileName ++ "-" ++ formatLayout now) cur) fileName now))))
    ∧ (∀ (env : PutEnv) (body : String) (now : Int) (st : Store),
      env.yamlOk = true → env.elementsOk = true → env.promtoolOk = true →
      (cmLookup st.current PrometheusConfigFileName).getD "" ≠ body →
      (env.histCommitOk = false →
        putPrometheusConfig env body now st = (.histCommitFailed, st))
      ∧ (env.histCommitOk = true → env.curCommitOk = false →
        putPrometheusConfig env body now st =
          (.curCommitFailed, Store.mk st.current (pruneOldBackups
            (cmInsert st.saved (PrometheusConfigFileName ++ "-" ++ formatLayout now)
              ((cmLookup st.current PrometheusConfigFileName).getD ""))
            PrometheusConfigFileName now)))) := by
  constructor
  · intro env fileName body cur now st hn0 hn1 hn2 hn3 he1 he2 he3 hc hne
    constructor
    · intro hh
      simp [putPrometheusRules, hn0, hn1, hn2, hn3, he1, he2, he3, hc, hne, hh]
    · intro hh hcu
      simp [putPrometheusRules, hn0, hn1, hn2, hn3, he1, he2, he3, hc, hne, hh, hcu]
  · intro env body now st he1 he2 he3 hne
    constructor
    · intro hh
      simp [putPrometheusConfig, he1, he2, he3, hne, hh]
    · intro hh hcu
      simp [putPrometheusConfig, he1, he2, he3, hne, hh, hcu]

/-- Witness for claim C4: with a failing history commit, updating the
existing rule aborts and the store is untouched. -/
theorem claim4_history_commit_first_witness :
    cmLookup stOne.current "a.rules" = some "x" ∧
      putPrometheusRules envHistFails "a.rules" "y" 0 stOne = (.histCommitFailed, stOne) :=
  ⟨by decide, (claim4_history_commit_first.1 envHistFails "a.rules" "y" "x" 0 stOne
    (by decide) (by decide) (by decide) (by decide) rfl rfl rfl (by decide) (by decide)).1 rfl⟩

/-! ## Claim C5: the read-back confirmation loop -/

theorem pollObserves_iff_branch (u : CMap) (d : Option CMap) :
    pollObserves u d ↔ ((u = [] ∧ d = none) ∨ deepEqualData d u = true) := by
  cases d with
  | none => simp [pollObserves, deepEqualData]
  | some mm => simp [pollObserves, deepEqualData]

theorem confirmLoop_ok_iff (updated : CMap) (polls : List (Except Unit (Option CMap))) :
    confirmLoop updated polls = .ok ↔
      ∃ (i : Nat) (d : Option CMap), polls[i]? = some (Except.ok d) ∧ pollObserves updated d ∧
        ∀ j, j < i → ∃ e, polls[j]? = some (Except.ok e) ∧ ¬ pollObserves updated e := by
  induction polls with
  | nil =>
      simp [confirmLoop]
  | cons r rest ih =>
      cases r with
      | error e =>
          simp only [confirmLoop]
          constructor
          · intro h
            exact absurd h (by simp)
          · rintro ⟨i, d, hi, -, hprev⟩
            cases i with
            | zero => simp at hi
            | succ k =>
                rcases hprev 0 (Nat.succ_pos k) with ⟨e', he', -⟩
                simp at he'
      | ok d0 =>
          by_cases hobs : pollObserves updated d0
          · have hlhs : confirmLoop updated (Except.ok d0 :: rest) = .ok := by
              rcases (pollObserves_iff_branch updated d0).mp hobs with h1 | h2
              · simp [confirmLoop, h1]
              · by_cases h1 : updated = [] ∧ d0 = none
                · simp [confirmLoop, h1]
                · simp [confirmLoop, h1, h2]
            rw [hlhs]
            constructor
            · intro _
              exact ⟨0, d0, by simp, hobs, fun j hj => absurd hj (Nat.not_lt_zero j)⟩
            · intro _
              rfl
          · have hb1 : ¬ (updated = [] ∧ d0 = none) := by
              intro h1
              exact hobs ((pollObserves_iff_branch updated d0).mpr (Or.inl h1))
            have hb2 : ¬ (deepEqualData d0 updated = true) := by
              intro h2
              exact hobs ((pollObserves_iff_branch updated d0).mpr (Or.inr h2))
            have hstep : confirmLoop updated (Except.ok d0 :: rest) =
                confirmLoop updated rest := by
              rw [Bool.not_eq_true] at hb2
              simp [confirmLoop, hb1, hb2]
            rw [hstep, ih]
            constructor
            · rintro ⟨i, d, hi, hod, hprev⟩
              refine ⟨i + 1, d, by simpa using hi, hod, ?_⟩
              intro j hj
              cases j with
              | zero => exact ⟨d0, by simp, hobs⟩
              | succ k =>
                  rcases hprev k (by omega) with ⟨e', he', hne'⟩
                  exact ⟨e', by simpa using he', hne'⟩
            · rintro ⟨i, d, hi, hod, hprev⟩
              cases i with
              | zero =>
                  simp only [List.getElem?_cons_zero, Option.some_inj] at hi
                  cases hi
                  exact absurd hod hobs
              | succ k =>
                  refine ⟨k, d, by simpa using hi, hod, ?_⟩
                  intro j hj
                  rcases hprev (j + 1) (by omega) with ⟨e', he', hne'⟩
                  exact ⟨e', by simpa using he', hne'⟩

theorem confirmLoop_timeout (updated : CMap) (polls : List (Except Unit (Option CMap)))
    (h : ∀ r ∈ polls, ∃ d, r = Except.ok d ∧ ¬ pollObserves updated d) :
    confirmLoop updated polls = .timedOut := by
  induction polls with
  | nil => rfl
  | cons r rest ih =>
      rcases h r (List.mem_cons_self r rest) with ⟨d, rfl, hnd⟩
      have hb1 : ¬ (updated = [] ∧ d = none) := by
        intro h1
        exact hnd ((pollObserves_iff_branch updated d).mpr (Or.inl h1))
      have hb2 : ¬ (deepEqualData d updated = true) := by
        intro h2
        exact hnd ((pollObserves_iff_branch updated d).mpr (Or.inr h2))
      rw [Bool.not_eq_true] at hb2
      simp only [confirmLoop, hb1, hb2, if_false, Bool.false_eq_true]
      exact ih (fun r hr => h r (List.mem_cons_of_mem _ hr))

/-- Claim C5. The commit confirmation loop succeeds exactly when some poll
observes the written map — deep equality of the read-back map, or, for an
empty written map, a nil read-back — with all earlier polls reading
non-matching data; if the write succeeded but no poll within the budget of
the fixed timeout observes the map, the commit reports the timed-out error,
which is distinct from the write error. -/
theorem claim5_confirmation_loop (updated : CMap)
    (polls : List (Except Unit (Option CMap))) :
    (updateConfigMapByName true true updated polls = .ok ↔
      ∃ (i : Nat) (d : Option CMap), polls[i]? = some (Except.ok d) ∧ pollObserves updated d ∧
        ∀ j, j < i → ∃ e, polls[j]? = some (Except.ok e) ∧ ¬ pollObserves updated e)
    ∧ ((∀ r ∈ polls, ∃ d, r = Except.ok d ∧ ¬ pollObserves updated d) →
        updateConfigMapByName true true updated polls = .timedOut)
    ∧ updateConfigMapByName true false updated polls = .writeFailed
    ∧ CommitResult.timedOut ≠ CommitResult.writeFailed := by
  refine ⟨?_, ?_, ?_, by simp⟩
  · simpa [updateConfigMapByName] using confirmLoop_ok_iff updated polls
  · intro h
    simpa [updateConfigMapByName] using confirmLoop_timeout updated polls h
  · simp [updateConfigMapByName]

/-- Witness for claim C5: a single stale poll exhausts the budget and the
commit times out. -/
theorem claim5_confirmation_loop_witness :
    (∀ r ∈ [(Except.ok (some [("a", "1")]) : Except Unit (Option CMap))],
      ∃ d, r = Except.ok d ∧ ¬ pollObserves [("a", "2")] d) ∧
    updateConfigMapByName true true [("a", "2")]
      [(Except.ok (some [("a", "1")]) : Except Unit (Option CMap))] = .timedOut :=
  ⟨by
      intro r hr
      simp only [List.mem_singleton] at hr
      subst hr
      exact ⟨some [("a", "1")], rfl, by decide⟩,
    (claim5_confirmation_loop [("a", "2")]
      [(Except.ok (some [("a", "1")]) : Except Unit (Option CMap))]).2.1 (by
      intro r hr
      simp only [List.mem_singleton] at hr
      subst hr
      exact ⟨some [("a", "1")], rfl, by decide⟩)⟩

/-! ## Claim C6: unparseable history keys under retention -/

/-- A history map for one base name with ten young parseable backups and one
key whose timestamp suffix does not parse. -/
def c6map : CMap :=
  [("a.rules-zzz", "vz"),
   ("a.rules-2020-01-01T00-00-00", "v0"),
   ("a.rules-2020-01-01T00-01-00", "v1"),
   ("a.rules-2020-01-01T00-02-00", "v2"),
   ("a.rules-2020-01-01T00-03-00", "v3"),
   ("a.rules-2020-01-01T00-04-00", "v4"),
   ("a.rules-2020-01-01T00-05-00", "v5"),
   ("a.rules-2020-01-01T00-06-00", "v6"),
   ("a.rules-2020-01-01T00-07-00", "v7"),
   ("a.rules-2020-01-01T00-08-00", "v8"),
   ("a.rules-2020-01-01T00-09-00", "v9")]

/-- One day after the parseable timestamps of `c6map`. -/
def c6now : Int := secOfDateTime 2020 1 2 0 0 0

/-- Counterexample to claim C6. The key `a.rules-zzz` has an unparseable
timestamp suffix, is present in the history map, yet a retention pass
removes it: the ignored parse error makes its timestamp the zero time, so it
sorts as oldest (position 10 of 11) and its computed age saturates far above
the 48-hour threshold. -/
theorem claim6_counterexample :
    parseLayout (replaceFirst "a.rules-zzz" ("a.rules" ++ "-")) = none ∧
      ("a.rules-zzz", "vz") ∈ c6map ∧
      ¬ (("a.rules-zzz", "vz") ∈ pruneOldBackups c6map "a.rules" c6now) := by
  decide

/-- Claim C6 as amended. A history key whose timestamp suffix fails to parse
is given the zero timestamp, so it sorts as oldest; but the retention step
does select it for eviction: whenever the matching keys exceed the count cap,
the key sits at position `≥ MaxBackupFiles` in the sorted order, and `now` is
at least 48 reported hours after the zero time, the key is removed by the
retention pass. -/
theorem claim6_amended_unparseable_evicted (m : CMap) (fileName key v : String)
    (now : Int)
    (hparse : parseLayout (replaceFirst key (fileName ++ "-")) = none)
    (_hmem : (key, v) ∈ m)
    (hlen : MaxBackupFiles < (sortKeysFromConfigMap m fileName).length)
    (hidx : ∃ j, MaxBackupFiles ≤ j ∧ (sortKeysFromConfigMap m fileName)[j]? = some key)
    (hage : MaxBackupHours ≤ Int.tdiv (clampDurNs (now * 1000000000)) 3600000000000) :
    keyTimestampSec key fileName = 0 ∧
      ¬ (key, v) ∈ pruneOldBackups m fileName now := by
  have hts : keyTimestampSec key fileName = 0 := by
    unfold keyTimestampSec
    rw [hparse]
    rfl
  refine ⟨hts, ?_⟩
  have hold : isOldVersion key fileName now = true := by
    unfold isOldVersion backupAgeHours
    rw [hts]
    simpa using hage
  intro hin
  unfold pruneOldBackups at hin
  rw [if_pos hlen, List.mem_filter] at hin
  rcases hin with ⟨-, hc⟩
  rw [Bool.not_eq_eq_eq_not, Bool.not_true, ← Bool.not_eq_true, List.elem_iff] at hc
  apply hc
  rw [List.mem_filter]
  refine ⟨?_, hold⟩
  rw [mem_drop_iff]
  exact hidx

/-- Witness for the amended claim C6 at the concrete counterexample input. -/
theorem claim6_amended_witness :
    keyTimestampSec "a.rules-zzz" "a.rules" = 0 ∧
      ¬ ("a.rules-zzz", "vz") ∈ pruneOldBackups c6map "a.rules" c6now :=
  claim6_amended_unparseable_evicted c6map "a.rules" "a.rules-zzz" "vz" c6now
    (by decide) (by decide) (by decide) ⟨10, by decide, by decide⟩ (by decide)

/-! ## Claim C7: the Retry executor -/

theorem firstDoneFrom_ge (fn : Nat → Bool × Option Nat) :
    ∀ (n idx i : Nat), firstDoneFrom fn idx n = some i → idx ≤ i := by
  intro n
  induction n with
  | zero =>
      intro idx i h
      simp [firstDoneFrom] at h
  | succ k ih =>
      intro idx i h
      unfold firstDoneFrom at h
      by_cases hd : (fn idx).1
      · rw [if_pos hd, Option.some_inj] at h
        omega
      · rw [if_neg hd] at h
        have := ih (idx + 1) i h
        omega

/-- Full characterization of `retryRun` in terms of the first successful
attempt and the accumulated last error. -/
theorem retryRun_eq (fn : Nat → Bool × Option Nat) :
    ∀ (steps idx : Nat) (acc : Option Nat),
      retryRun fn steps idx acc =
        match firstDoneFrom fn idx steps with
        | some i =>
            (match accErr fn acc idx (i + 1 - idx) with
             | some e => some (GoErr.fnErr e)
             | none => none)
        | none =>
            (match accErr fn acc idx steps with
             | some e => some (GoErr.fnErr e)
             | none => some GoErr.errWaitTimeout) := by
  intro steps
  induction steps with
  | zero =>
      intro idx acc
      simp [retryRun, firstDoneFrom, accErr]
  | succ k ih =>
      intro idx acc
      unfold retryRun firstDoneFrom
      by_cases hd : (fn idx).1
      · simp only [hd, if_true]
        have h1 : idx + 1 - idx = 1 := by omega
        rw [h1]
        simp [accErr]
      · have hd' : (fn idx).1 = false := by rwa [Bool.not_eq_true] at hd
        simp only [hd', Bool.false_eq_true, if_false]
        rw [ih (idx + 1) (updLastErr acc (fn idx).2)]
        rcases hf : firstDoneFrom fn (idx + 1) k with _ | i
        · have h2 : accErr fn acc idx (k + 1) =
              accErr fn (updLastErr acc (fn idx).2) (idx + 1) k := by
            simp [accErr]
          rw [h2]
        · have hge : idx + 1 ≤ i := firstDoneFrom_ge fn k (idx + 1) i hf
          have h2 : accErr fn acc idx (i + 1 - idx) =
              accErr fn (updLastErr acc (fn idx).2) (idx + 1) (i + 1 - (idx + 1)) := by
            have h3 : i + 1 - idx = (i + 1 - (idx + 1)) + 1 := by omega
            rw [h3]
            simp [accErr]
          simp only [h2]

/-- Counterexample to claim C7. With a two-step schedule where attempt 0
returns an error and attempt 1 succeeds (`done = true` with a nil error),
`Retry` stops on the success but still surfaces the attempt-0 error instead
of returning without error. -/
def c7fn : Nat → Bool × Option Nat
  | 0 => (false, some 7)
  | _ => (true, none)

theorem claim7_counterexample :
    (c7fn 1).1 = true ∧ (c7fn 1).2 = none ∧ (c7fn 0).1 = false ∧
      Retry 2 c7fn = some (GoErr.fnErr 7) ∧ Retry 2 c7fn ≠ none := by
  decide

/-- Claim C7 as amended. `Retry` stops at the first attempt reporting
`done = true`, and an error from the condition function never terminates the
loop; but the error returned to the caller is the last error observed among
all executed attempts — even when the loop stopped on `done` — and only when
no attempt observed an error does `Retry` return nil on `done`, or the
timeout indicator on exhaustion. -/
theorem claim7_amended_retry (fn : Nat → Bool × Option Nat) (steps : Nat) :
    (∀ i, firstDoneFrom fn 0 steps = some i →
      Retry steps fn =
        (match accErr fn none 0 (i + 1) with
         | some e => some (GoErr.fnErr e)
         | none => none))
    ∧ (firstDoneFrom fn 0 steps = none →
      Retry steps fn =
        (match accErr fn none 0 steps with
         | some e => some (GoErr.fnErr e)
         | none => some GoErr.errWaitTimeout)) := by
  constructor
  · intro i hi
    unfold Retry
    rw [retryRun_eq fn steps 0 none, hi]
    simp
  · intro hn
    unfold Retry
    rw [retryRun_eq fn steps 0 none, hn]

/-- Witness for the amended claim C7 at the counterexample schedule. -/
theorem claim7_amended_retry_witness :
    firstDoneFrom c7fn 0 2 = some 1 ∧ Retry 2 c7fn = some (GoErr.fnErr 7) :=
  ⟨by decide, by
    rw [(claim7_amended_retry c7fn 2).1 1 (by decide)]
    decide⟩

/-! ## Claim C8: deletion completeness -/

/-- If no entry of the map carries the base-name prefix, the sorted key list
is empty. -/
theorem sortKeys_eq_nil_of_no_match (m : CMap) (fileName : String)
    (h : ∀ kv ∈ m, strHasPre kv.1 fileName = false) :
    sortKeysFromConfigMap m fileName = [] := by
  have hfil : (cmKeys m).filter
      (fun k => (!(fileName = "")) && strHasPre k fileName) = [] := by
    rw [List.filter_eq_nil_iff]
    intro a ha
    rcases List.mem_map.mp ha with ⟨kv, hkv, rfl⟩
    rw [h kv hkv]
    simp
  unfold sortKeysFromConfigMap
  simp only [hfil]
  rfl



/-- Claim C8. A successful delete of an existing rule removes it from the
current collection and removes every matching key from the history
collection: the current lookup afterwards is absent, no history entry keeps
the base-name prefix, the sorted version-key list is empty, and both the
current GET and the versions GET report that no current rule exists. -/
theorem claim8_delete_completeness (env : DelEnv) (fileName v : String) (st : Store)
    (hn0 : fileName ≠ "") (hn2 : strHasSuf fileName ".rules" = true)
    (hn3 : validateName fileName = true) (hnc : strContains fileName ".rules" = true)
    (hcur : cmLookup st.current fileName = some v)
    (hc1 : env.curCommitOk = true) (hc2 : env.histCommitOk = true) :
    (deletePrometheusRules env fileName st).1 = .deleted ∧
      cmLookup (deletePrometheusRules env fileName st).2.current fileName = none ∧
      (∀ kv ∈ (deletePrometheusRules env fileName st).2.saved,
        strHasPre kv.1 fileName = false) ∧
      sortKeysFromConfigMap (deletePrometheusRules env fileName st).2.saved fileName = [] ∧
      getPrometheusRules (deletePrometheusRules env fileName st).2 fileName "" = .noCurrent ∧
      getPrometheusRuleVersions (deletePrometheusRules env fileName st).2 fileName =
        .noCurrent := by
  have hrun : deletePrometheusRules env fileName st =
      (.deleted, Store.mk (cmErase st.current fileName)
        (st.saved.filter
          (fun kv => !((sortKeysFromConfigMap st.saved fileName).contains kv.1)))) := by
    simp [deletePrometheusRules, hn0, hn2, hn3, hcur, hc1, hc2]
  have hnopre : ∀ kv ∈ st.saved.filter
      (fun kv => !((sortKeysFromConfigMap st.saved fileName).contains kv.1)),
      strHasPre kv.1 fileName = false := by
    intro kv hkv
    rw [List.mem_filter] at hkv
    rcases hkv with ⟨hmem, hcont⟩
    by_contra hpre
    rw [Bool.not_eq_false] at hpre
    have hin : kv.1 ∈ sortKeysFromConfigMap st.saved fileName :=
      (mem_sortKeysFromConfigMap st.saved fileName kv.1).mpr
        ⟨List.mem_map_of_mem Prod.fst hmem, hn0, hpre⟩
    rw [Bool.not_eq_eq_eq_not, Bool.not_true, ← Bool.not_eq_true, List.elem_iff] at hcont
    exact hcont hin
  have hsorted : sortKeysFromConfigMap
      (st.saved.filter
        (fun kv => !((sortKeysFromConfigMap st.saved fileName).contains kv.1)))
      fileName = [] :=
    sortKeys_eq_nil_of_no_match _ fileName hnopre
  rw [hrun]
  refine ⟨rfl, cmLookup_cmErase_self st.current fileName, hnopre, hsorted, ?_, ?_⟩
  · simp [getPrometheusRules, hn0, hnc, hn3, cmLookup_cmErase_self]
  · simp [getPrometheusRuleVersions, hn2, hn3, cmLookup_cmErase_self]

/-- Commit oracle for delete in which both commits succeed. -/
def envDelOk : DelEnv := { curCommitOk := true, histCommitOk := true }

/-- A store with one current rule and two history entries, one of them a
backup of the rule. -/
def stDel : Store :=
  { current := [("a.rules", "x")],
    saved := [("a.rules-2020-01-01T00-00-00", "old"), ("b.rules-keep", "k")] }

/-- Witness for claim C8 on a concrete store. -/
theorem claim8_delete_completeness_witness :
    (deletePrometheusRules envDelOk "a.rules" stDel).1 = .deleted ∧
      cmLookup (deletePrometheusRules envDelOk "a.rules" stDel).2.current "a.rules" = none ∧
      (∀ kv ∈ (deletePrometheusRules envDelOk "a.rules" stDel).2.saved,
        strHasPre kv.1 "a.rules" = false) ∧
      sortKeysFromConfigMap (deletePrometheusRules envDelOk "a.rules" stDel).2.saved
        "a.rules" = [] ∧
      getPrometheusRules (deletePrometheusRules envDelOk "a.rules" stDel).2 "a.rules" "" =
        .noCurrent ∧
      getPrometheusRuleVersions (deletePrometheusRules envDelOk "a.rules" stDel).2 "a.rules" =
        .noCurrent :=
  claim8_delete_completeness envDelOk "a.rules" "x" stDel
    (by decide) (by decide) (by decide) (by decide) (by decide) rfl rfl

/-! ## Claim C9: the version-timestamp pre-check -/

theorem getRules_badVersion_of_badChar (st : Store) (fileName version : String)
    (hn0 : fileName ≠ "") (hnc : strContains fileName ".rules" = true)
    (hn3 : validateName fileName = true) (hv : version ≠ "")
    (hvs : versionStringOk version = false) :
    getPrometheusRules st fileName version = .badVersion := by
  simp [getPrometheusRules, hn0, hnc, hn3, hv, hvs]

theorem getRules_ne_badVersion_of_goodChar (st : Store) (fileName version : String)
    (hn0 : fileName ≠ "") (hnc : strContains fileName ".rules" = true)
    (hn3 : validateName fileName = true) (hv : version ≠ "")
    (hvs : versionStringOk version = true) :
    getPrometheusRules st fileName version ≠ .badVersion := by
  unfold getPrometheusRules
  rw [if_neg hn0]
  rw [if_neg (by simp [hnc])]
  rw [if_neg (by simp [hn3])]
  rw [if_neg (by rintro ⟨-, h⟩; rw [hvs] at h; cases h)]
  rcases hc : cmLookup st.current fileName with _ | v
  · simp
  · rcases hw : cmLookup st.saved (fileName ++ "-" ++ version) with _ | w <;> simp [hv, hw]

theorem getConfig_badVersion_of_badChar (st : Store) (version : String)
    (hv : version ≠ "") (hvs : versionStringOk version = false) :
    getPrometheusConfig st version = .badVersion := by
  simp [getPrometheusConfig, hv, hvs]

theorem getConfig_ne_badVersion_of_goodChar (st : Store) (version : String)
    (hv : version ≠ "") (hvs : versionStringOk version = true) :
    getPrometheusConfig st version ≠ .badVersion := by
  unfold getPrometheusConfig
  rw [if_neg (by rintro ⟨-, h⟩; rw [hvs] at h; cases h), if_neg hv]
  by_cases hemp : st.saved.isEmpty
  · simp [hemp]
  · rw [if_neg hemp]
    by_cases hkey : (cmLookup st.saved (PrometheusConfigFileName ++ "-" ++ version)).getD "" = ""
    · simp [hkey]
    · simp [hkey]

/-- Claim C9. For a version-parameterized GET (rules and prometheus config),
a non-empty version string is rejected as an invalid timestamp exactly when
it contains a character outside digits, hyphens and `T`; the rejection
happens before any backend read, so the result on a rejected version is the
same for every store; and the permissive check admits exactly the strings
composed of the class characters. -/
theorem claim9_version_timestamp_precheck (st st2 : Store) (fileName version : String)
    (hn0 : fileName ≠ "") (hnc : strContains fileName ".rules" = true)
    (hn3 : validateName fileName = true) (hv : version ≠ "") :
    (getPrometheusRules st fileName version = .badVersion ↔
      ¬ versionStringOk version = true)
    ∧ (versionStringOk version = true ↔ ∀ c ∈ version.toList, versionCh c = true)
    ∧ (versionStringOk version = false →
        getPrometheusRules st fileName version = getPrometheusRules st2 fileName version)
    ∧ (getPrometheusConfig st version = .badVersion ↔ ¬ versionStringOk version = true)
    ∧ (versionStringOk version = false →
        getPrometheusConfig st version = getPrometheusConfig st2 version) := by
  refine ⟨?_, ?_, ?_, ?_, ?_⟩
  · constructor
    · intro h hvs
      exact getRules_ne_badVersion_of_goodChar st fileName version hn0 hnc hn3 hv hvs h
    · intro h
      rw [Bool.not_eq_true] at h
      exact getRules_badVersion_of_badChar st fileName version hn0 hnc hn3 hv h
  · unfold versionStringOk
    rw [List.all_eq_true]
  · intro hvs
    rw [getRules_badVersion_of_badChar st fileName version hn0 hnc hn3 hv hvs,
      getRules_badVersion_of_badChar st2 fileName version hn0 hnc hn3 hv hvs]
  · constructor
    · intro h hvs
      exact getConfig_ne_badVersion_of_goodChar st version hv hvs h
    · intro h
      rw [Bool.not_eq_true] at h
      exact getConfig_badVersion_of_badChar st version hv h
  · intro hvs
    rw [getConfig_badVersion_of_badChar st version hv hvs,
      getConfig_badVersion_of_badChar st2 version hv hvs]

/-- Witness for claim C9: the version string "2020-01-01T00-00_bad" contains
an underscore, so the rules GET rejects it on two different stores alike. -/
theorem claim9_version_timestamp_precheck_witness :
    versionStringOk "2020-01-01T00-00_bad" = false ∧
      getPrometheusRules stOne "a.rules" "2020-01-01T00-00_bad" = .badVersion ∧
      getPrometheusRules stDel "a.rules" "2020-01-01T00-00_bad" =
        getPrometheusRules stOne "a.rules" "2020-01-01T00-00_bad" :=
  ⟨by decide,
    (claim9_version_timestamp_precheck stOne stDel "a.rules" "2020-01-01T00-00_bad"
      (by decide) (by decide) (by decide) (by decide)).1.mpr (by decide),
    (claim9_version_timestamp_precheck stDel stOne "a.rules" "2020-01-01T00-00_bad"
      (by decide) (by decide) (by decide) (by decide)).2.2.1 (by decide)⟩

/-! ## Claim C10: validateName accepts any name containing a word character -/

theorem isWordCh_ne_hyphen (c : Char) (h : isWordCh c = true) : c ≠ '-' := by
  intro heq
  subst heq
  exact absurd h (by decide)

/-- Claim C10. `validateName` accepts a proposed name exactly when the string
obtained by deleting every hyphen contains an ASCII word character — which is
the same as the name itself containing a word character anywhere; names built
from arbitrary other characters are accepted as soon as one word character is
present, and only names with no word character at all are rejected. -/
theorem claim10_validateName_word_char (p : String) :
    (validateName p = true ↔
      ∃ c ∈ p.toList.filter (fun c => c ≠ '-'), isWordCh c = true)
    ∧ (validateName p = true ↔ ∃ c ∈ p.toList, isWordCh c = true)
    ∧ validateName "a$/ b" = true ∧ validateName "$-/ #" = false ∧
      validateName "" = false ∧ validateName "---" = false := by
  have h1 : validateName p = true ↔
      ∃ c ∈ p.toList.filter (fun c => c ≠ '-'), isWordCh c = true := by
    unfold validateName
    rw [List.any_eq_true]
  refine ⟨h1, ?_, by decide, by decide, by decide, by decide⟩
  rw [h1]
  constructor
  · rintro ⟨c, hc, hw⟩
    exact ⟨c, (List.mem_filter.mp hc).1, hw⟩
  · rintro ⟨c, hc, hw⟩
    refine ⟨c, List.mem_filter.mpr ⟨hc, ?_⟩, hw⟩
    simpa using isWordCh_ne_hyphen c hw

end Vmi
